import Mathlib

/-!
In-memory task repository (`internal/app/todo`).

A shallow embedding of `model.go` and `repository.go`.

Modelling conventions.

* `r.tasks` is a Go `map[string]*Task`.  It is embedded as an association list with
  pairwise distinct keys (`AList`); `tasks[k] = v` is `AList.insert`, `delete(tasks, k)`
  is `AList.erase`, `v, ok := tasks[k]` is `AList.lookup`.
* Every stored pointer is taken to be owned by the map alone, so a record is stored by
  value and the in-place writes of `Check`/`Uncheck` through the stored pointer become a
  write of the changed record under the same key.
* `time.Now()` and `uuid.New().String()` are inputs of the operation that calls them
  (`now`, `id`).
* A Go `error` result is `Option Error` (`none` is `nil`); a `(value, error)` result is
  `Except Error value`.
* `for _, task := range r.tasks` visits the entries in the order of the list; Go leaves
  the order open, and no statement below depends on it.
* The `sync.RWMutex` is not modelled: each operation is one atomic step.
-/

namespace Todo

/-- A reading of `time.Now()`, as a count of clock ticks. -/
abbrev Time := Int

/-- The record `Task` of `model.go`; `UpdatedAt` is a nullable `*time.Time`. -/
structure Task where
  ID : String
  Title : String
  Description : String
  Completed : Bool
  CreatedAt : Time
  UpdatedAt : Option Time
deriving DecidableEq, Repr

/-- The errors of the package: `ErrTaskNotFound` is the only one. -/
inductive Error where
  | ErrTaskNotFound
deriving DecidableEq, Repr

/-- The struct `InMemoryRepository`: the map from identifier to task. -/
structure InMemoryRepository where
  tasks : AList (fun _ : String => Task)
deriving DecidableEq

/-- The constructor `NewInMemoryRepository`: an empty map. -/
def NewInMemoryRepository : InMemoryRepository :=
  ⟨∅⟩

namespace InMemoryRepository

/-- The number of entries of the map, `len(r.tasks)`. -/
def len (r : InMemoryRepository) : Nat :=
  r.tasks.keys.length

/-- The method `Create`: writes the generated `id` and the clock reading into the task,
stores it under that id and returns `nil`.  The second component is the task as the
caller sees it afterwards through its pointer. -/
def Create (r : InMemoryRepository) (task : Task) (id : String) (now : Time) :
    InMemoryRepository × Task × Option Error :=
  let task := { task with ID := id }
  let task := { task with CreatedAt := now }
  (⟨r.tasks.insert task.ID task⟩, task, none)

/-- The method `GetAll`: ranges over the map and appends a copy of every task. -/
def GetAll (r : InMemoryRepository) : Except Error (List Task) :=
  .ok (r.tasks.entries.foldl (fun tasks e => tasks ++ [e.2]) [])

/-- The method `GetByID`. -/
def GetByID (r : InMemoryRepository) (id : String) : Except Error Task :=
  match r.tasks.lookup id with
  | none => .error .ErrTaskNotFound
  | some task => .ok task

/-- The method `Update`: stamps `UpdatedAt` and stores the task under its own id,
with no look-up beforehand. -/
def Update (r : InMemoryRepository) (task : Task) (now : Time) :
    InMemoryRepository × Task × Option Error :=
  let updatedAt := now
  let task := { task with UpdatedAt := some updatedAt }
  (⟨r.tasks.insert task.ID task⟩, task, none)

/-- The method `Delete`. -/
def Delete (r : InMemoryRepository) (id : String) : InMemoryRepository × Option Error :=
  match r.tasks.lookup id with
  | none => (r, some .ErrTaskNotFound)
  | some _ => (⟨r.tasks.erase id⟩, none)

/-- The method `Check`. -/
def Check (r : InMemoryRepository) (id : String) (now : Time) :
    InMemoryRepository × Option Error :=
  match r.tasks.lookup id with
  | none => (r, some .ErrTaskNotFound)
  | some task =>
    let task := { task with Completed := true }
    let updatedAt := now
    let task := { task with UpdatedAt := some updatedAt }
    (⟨r.tasks.insert id task⟩, none)

/-- The method `Uncheck`. -/
def Uncheck (r : InMemoryRepository) (id : String) (now : Time) :
    InMemoryRepository × Option Error :=
  match r.tasks.lookup id with
  | none => (r, some .ErrTaskNotFound)
  | some task =>
    let updatedAt := now
    let task := { task with UpdatedAt := some updatedAt }
    let task := { task with Completed := false }
    (⟨r.tasks.insert id task⟩, none)

end InMemoryRepository

/-- The zero value of `Task`, as `var task Task` declares it. -/
def Task.zero : Task :=
  ⟨"", "", "", false, 0, none⟩

/-- A store is keyed by id when every record sits under its own `ID`. -/
def KeyedByID (r : InMemoryRepository) : Prop :=
  ∀ e ∈ r.tasks.entries, e.2.ID = e.1

instance (r : InMemoryRepository) : Decidable (KeyedByID r) := by
  unfold KeyedByID
  infer_instance

/-- One call of a method that writes to the store, with the values it draws from the
identifier generator and the clock. -/
inductive Call where
  | Create (task : Task) (id : String) (now : Time)
  | Update (task : Task) (now : Time)
  | Delete (id : String)
  | Check (id : String) (now : Time)
  | Uncheck (id : String) (now : Time)
deriving DecidableEq, Repr

/-- The store after one call. -/
def Call.apply (r : InMemoryRepository) : Call → InMemoryRepository
  | .Create task id now => (r.Create task id now).1
  | .Update task now => (r.Update task now).1
  | .Delete id => (r.Delete id).1
  | .Check id now => (r.Check id now).1
  | .Uncheck id now => (r.Uncheck id now).1

/-- The store after a sequence of calls, first call first. -/
def run (r : InMemoryRepository) (calls : List Call) : InMemoryRepository :=
  calls.foldl Call.apply r

/-- The clock reading a call takes; `Delete` takes none. -/
def Call.clock : Call → Option Time
  | .Create _ _ now => some now
  | .Update _ now => some now
  | .Delete _ => none
  | .Check _ now => some now
  | .Uncheck _ now => some now

/-- The clock readings of a sequence of calls, in the order they are taken. -/
def clocks (calls : List Call) : List Time :=
  calls.filterMap Call.clock

/-- A store with one task, created at clock reading 1 under the id `"k"`. -/
def oneTask : InMemoryRepository :=
  (NewInMemoryRepository.Create { Task.zero with Title := "Buy milk" } "k" 1).1

/-- A call whose argument carries no stale timestamp: the task given to `Create` has no
`UpdatedAt`, the task given to `Update` has a `CreatedAt` not later than the clock reading
of the call. -/
def Call.Admissible : Call → Prop
  | .Create task _ _ => task.UpdatedAt = none
  | .Update task now => task.CreatedAt ≤ now
  | .Delete _ => True
  | .Check _ _ => True
  | .Uncheck _ _ => True

instance (c : Call) : Decidable c.Admissible := by
  cases c <;> unfold Call.Admissible <;> infer_instance

/-- Every timestamp of the store is at most `bound`, and every `UpdatedAt` that is set is
at least the `CreatedAt` of its task. -/
def Timely (r : InMemoryRepository) (bound : Time) : Prop :=
  ∀ k t, r.tasks.lookup k = some t →
    t.CreatedAt ≤ bound ∧ ∀ u, t.UpdatedAt = some u → t.CreatedAt ≤ u ∧ u ≤ bound

/-- One `Update` of a task with the empty id. -/
def updateEmptyID : List Call :=
  [.Update { Task.zero with Title := "t" } 1]

/-- One `Create` of a task that arrives with `UpdatedAt` 3, at clock reading 5. -/
def createStale : List Call :=
  [.Create { Task.zero with UpdatedAt := some 3 } "a" 5]

/-- A `Create` at clock reading 5, then an `Update` at 6 of a task with `CreatedAt` 9. -/
def updateLateCreatedAt : List Call :=
  [.Create Task.zero "a" 5, .Update ⟨"a", "", "", false, 9, none⟩ 6]

/-- A `Create` at clock reading 5 of a task that arrives with `UpdatedAt` 8. -/
def createAhead : List Call :=
  [.Create { Task.zero with UpdatedAt := some 8 } "a" 5]

open InMemoryRepository

/-! ## Look-up after each operation -/

theorem lookup_Create (r : InMemoryRepository) (task : Task) (id : String) (now : Time)
    (k : String) :
    (Create r task id now).1.tasks.lookup k =
      if k = id then some { task with ID := id, CreatedAt := now } else r.tasks.lookup k := by
  by_cases hk : k = id
  · subst hk
    simp [Create, AList.lookup_insert]
  · simp [Create, AList.lookup_insert_ne hk, hk]

theorem lookup_Update (r : InMemoryRepository) (task : Task) (now : Time) (k : String) :
    (Update r task now).1.tasks.lookup k =
      if k = task.ID then some { task with UpdatedAt := some now } else r.tasks.lookup k := by
  by_cases hk : k = task.ID
  · subst hk
    simp [Update, AList.lookup_insert]
  · simp [Update, AList.lookup_insert_ne hk, hk]

theorem Delete_of_lookup_none {r : InMemoryRepository} {id : String}
    (h : r.tasks.lookup id = none) : Delete r id = (r, some .ErrTaskNotFound) := by
  simp [Delete, h]

theorem Delete_of_lookup_some {r : InMemoryRepository} {id : String} {task : Task}
    (h : r.tasks.lookup id = some task) : Delete r id = (⟨r.tasks.erase id⟩, none) := by
  simp [Delete, h]

theorem Check_of_lookup_none {r : InMemoryRepository} {id : String} (now : Time)
    (h : r.tasks.lookup id = none) : Check r id now = (r, some .ErrTaskNotFound) := by
  simp [Check, h]

theorem Check_of_lookup_some {r : InMemoryRepository} {id : String} {task : Task} (now : Time)
    (h : r.tasks.lookup id = some task) :
    Check r id now =
      (⟨r.tasks.insert id { task with Completed := true, UpdatedAt := some now }⟩, none) := by
  simp [Check, h]

theorem Uncheck_of_lookup_none {r : InMemoryRepository} {id : String} (now : Time)
    (h : r.tasks.lookup id = none) : Uncheck r id now = (r, some .ErrTaskNotFound) := by
  simp [Uncheck, h]

theorem Uncheck_of_lookup_some {r : InMemoryRepository} {id : String} {task : Task}
    (now : Time) (h : r.tasks.lookup id = some task) :
    Uncheck r id now =
      (⟨r.tasks.insert id { task with Completed := false, UpdatedAt := some now }⟩, none) := by
  simp [Uncheck, h]

theorem lookup_eq_none_iff_not_mem_keys (r : InMemoryRepository) (id : String) :
    r.tasks.lookup id = none ↔ id ∉ r.tasks.keys := by
  rw [AList.lookup_eq_none, AList.mem_keys]

theorem GetByID_eq_error_iff (r : InMemoryRepository) (id : String) :
    GetByID r id = .error .ErrTaskNotFound ↔ r.tasks.lookup id = none := by
  unfold GetByID
  cases h : r.tasks.lookup id <;> simp

theorem Delete_notFound_iff (r : InMemoryRepository) (id : String) :
    (Delete r id).2 = some .ErrTaskNotFound ↔ r.tasks.lookup id = none := by
  unfold Delete
  cases h : r.tasks.lookup id <;> simp

theorem Check_notFound_iff (r : InMemoryRepository) (id : String) (now : Time) :
    (Check r id now).2 = some .ErrTaskNotFound ↔ r.tasks.lookup id = none := by
  unfold Check
  cases h : r.tasks.lookup id <;> simp

theorem Uncheck_notFound_iff (r : InMemoryRepository) (id : String) (now : Time) :
    (Uncheck r id now).2 = some .ErrTaskNotFound ↔ r.tasks.lookup id = none := by
  unfold Uncheck
  cases h : r.tasks.lookup id <;> simp

/-! ## The claims -/

/-- C1 (the code at the claim's inputs): for every store and every task whose id is not a
key of the store, `Update` returns `nil`, not `ErrTaskNotFound`, stores the task under its
id and so raises the number of stored tasks by one. -/
theorem Update_absent_id_is_stored (r : InMemoryRepository) (task : Task) (now : Time)
    (h : task.ID ∉ r.tasks.keys) :
    (Update r task now).2.2 = none ∧
    (Update r task now).1.tasks.lookup task.ID = some { task with UpdatedAt := some now } ∧
    (Update r task now).1.len = r.len + 1 := by
  refine ⟨rfl, ?_, ?_⟩
  · simp [lookup_Update]
  · simp [Update, len, AList.keys_insert, List.erase_of_not_mem h]

/-- C1, at the empty store: `Update` of a task with id `"x"` returns `nil` and the store
then holds one task. -/
theorem Update_absent_id_is_stored_witness :
    (Update NewInMemoryRepository { Task.zero with ID := "x" } 7).2.2 = none ∧
    (Update NewInMemoryRepository { Task.zero with ID := "x" } 7).1.tasks.lookup "x" =
      some { Task.zero with ID := "x", UpdatedAt := some 7 } ∧
    (Update NewInMemoryRepository { Task.zero with ID := "x" } 7).1.len =
      NewInMemoryRepository.len + 1 :=
  Update_absent_id_is_stored NewInMemoryRepository { Task.zero with ID := "x" } 7 (by decide)

/-- C2: each of `GetByID`, `Delete`, `Check` and `Uncheck` returns `ErrTaskNotFound` exactly
when the id is not a key of the store, and a `Delete`, `Check` or `Uncheck` that returns
`ErrTaskNotFound` hands back the store it was given (`GetByID` has no store to hand back: it
only reads). -/
theorem notFound_iff_absent_and_store_kept (r : InMemoryRepository) (id : String)
    (now : Time) :
    (GetByID r id = .error .ErrTaskNotFound ↔ id ∉ r.tasks.keys) ∧
    ((Delete r id).2 = some .ErrTaskNotFound ↔ id ∉ r.tasks.keys) ∧
    ((Check r id now).2 = some .ErrTaskNotFound ↔ id ∉ r.tasks.keys) ∧
    ((Uncheck r id now).2 = some .ErrTaskNotFound ↔ id ∉ r.tasks.keys) ∧
    ((Delete r id).2 = some .ErrTaskNotFound → (Delete r id).1 = r) ∧
    ((Check r id now).2 = some .ErrTaskNotFound → (Check r id now).1 = r) ∧
    ((Uncheck r id now).2 = some .ErrTaskNotFound → (Uncheck r id now).1 = r) := by
  refine ⟨?_, ?_, ?_, ?_, ?_, ?_, ?_⟩
  · rw [GetByID_eq_error_iff, lookup_eq_none_iff_not_mem_keys]
  · rw [Delete_notFound_iff, lookup_eq_none_iff_not_mem_keys]
  · rw [Check_notFound_iff, lookup_eq_none_iff_not_mem_keys]
  · rw [Uncheck_notFound_iff, lookup_eq_none_iff_not_mem_keys]
  · intro h
    rw [Delete_of_lookup_none ((Delete_notFound_iff r id).mp h)]
  · intro h
    rw [Check_of_lookup_none now ((Check_notFound_iff r id now).mp h)]
  · intro h
    rw [Uncheck_of_lookup_none now ((Uncheck_notFound_iff r id now).mp h)]

/-! ## `GetAll` as a list of the stored records -/

theorem foldl_append_singleton {α β : Type} (f : α → β) (l : List α) (init : List β) :
    l.foldl (fun acc e => acc ++ [f e]) init = init ++ l.map f := by
  induction l generalizing init with
  | nil => simp
  | cons a l ih => simp [ih]

theorem GetAll_eq (r : InMemoryRepository) :
    GetAll r = .ok (r.tasks.entries.map (fun e => e.2)) := by
  simp [GetAll, foldl_append_singleton]

theorem mem_entries_iff_lookup (r : InMemoryRepository) (k : String) (t : Task) :
    (⟨k, t⟩ : Sigma fun _ : String => Task) ∈ r.tasks.entries ↔ r.tasks.lookup k = some t := by
  rw [← AList.mem_lookup_iff]
  rfl

theorem keyedByID_lookup {r : InMemoryRepository} (h : KeyedByID r) {k : String} {t : Task}
    (hk : r.tasks.lookup k = some t) : t.ID = k :=
  h ⟨k, t⟩ ((mem_entries_iff_lookup r k t).mpr hk)

/-- C3 (as amended): `Create` returns `nil`, and `GetByID` of the id it assigned returns
the input task with that id and with `CreatedAt` set to the clock reading: title,
description, `Completed` and `UpdatedAt` are those of the input. -/
theorem Create_then_GetByID (r : InMemoryRepository) (task : Task) (id : String)
    (now : Time) :
    (Create r task id now).2.2 = none ∧
    (Create r task id now).2.1.ID = id ∧
    ∃ got, GetByID (Create r task id now).1 (Create r task id now).2.1.ID = .ok got ∧
      got.ID = id ∧ got.Title = task.Title ∧ got.Description = task.Description ∧
      got.Completed = task.Completed ∧ got.UpdatedAt = task.UpdatedAt ∧
      got.CreatedAt = now := by
  refine ⟨rfl, rfl, { task with ID := id, CreatedAt := now }, ?_, rfl, rfl, rfl, rfl, rfl, rfl⟩
  have h := lookup_Create r task id now id
  simp only [if_true] at h
  show GetByID (Create r task id now).1 id = _
  simp [GetByID, h]

/-- C3 (as stated) fails: created from a task that arrives completed and with `UpdatedAt`
set, the stored task is completed and has `UpdatedAt` set. -/
theorem Create_keeps_Completed_and_UpdatedAt :
    GetByID (Create NewInMemoryRepository
        { Task.zero with Title := "t", Completed := true, UpdatedAt := some 3 } "a" 5).1 "a" =
      .ok ⟨"a", "t", "", true, 5, some 3⟩ ∧
    ¬ ∃ got, GetByID (Create NewInMemoryRepository
        { Task.zero with Title := "t", Completed := true, UpdatedAt := some 3 } "a" 5).1 "a" =
          .ok got ∧
        got.Title = "t" ∧ got.Description = "" ∧ got.Completed = false ∧
        got.UpdatedAt = none ∧ got.CreatedAt = 5 := by
  refine ⟨rfl, ?_⟩
  rintro ⟨got, hgot, -, -, hc, -, -⟩
  have h : GetByID (Create NewInMemoryRepository
        { Task.zero with Title := "t", Completed := true, UpdatedAt := some 3 } "a" 5).1 "a" =
      .ok ⟨"a", "t", "", true, 5, some 3⟩ := rfl
  rw [h] at hgot
  injection hgot with hgot
  subst hgot
  simp at hc

/-- C4 (as amended): when the store holds a task under `k` and the argument has id `k`,
the task stored under `k` after `Update` has id `k` and the `CreatedAt` of the argument,
which is the `CreatedAt` stored before exactly when the argument carries it. -/
theorem Update_stores_argument (r : InMemoryRepository) (task old : Task) (k : String)
    (now : Time) (hold : r.tasks.lookup k = some old) (hid : task.ID = k) :
    ∃ new, (Update r task now).1.tasks.lookup k = some new ∧ new.ID = k ∧
      new.CreatedAt = task.CreatedAt ∧
      (new.CreatedAt = old.CreatedAt ↔ task.CreatedAt = old.CreatedAt) := by
  have _ := hold
  refine ⟨{ task with UpdatedAt := some now }, ?_, hid, rfl, Iff.rfl⟩
  rw [lookup_Update, if_pos hid.symm]

/-- C4 (as amended), at the store `oneTask` and an argument that carries the stored
`CreatedAt`. -/
theorem Update_stores_argument_witness :
    ∃ new, (Update oneTask ⟨"k", "Buy bread", "", false, 1, none⟩ 9).1.tasks.lookup "k" =
        some new ∧ new.ID = "k" ∧ new.CreatedAt = 1 ∧
      (new.CreatedAt = (⟨"k", "Buy milk", "", false, 1, none⟩ : Task).CreatedAt ↔
        (1 : Time) = (⟨"k", "Buy milk", "", false, 1, none⟩ : Task).CreatedAt) :=
  Update_stores_argument oneTask ⟨"k", "Buy bread", "", false, 1, none⟩
    ⟨"k", "Buy milk", "", false, 1, none⟩ "k" 9 rfl rfl

/-- C4 (as stated) fails: `oneTask` holds under `"k"` a task created at 1; after `Update`
of a task with id `"k"` and `CreatedAt` 4, the task under `"k"` has `CreatedAt` 4. -/
theorem Update_overwrites_CreatedAt :
    oneTask.tasks.lookup "k" = some ⟨"k", "Buy milk", "", false, 1, none⟩ ∧
    (Update oneTask ⟨"k", "Buy milk", "", false, 4, none⟩ 9).1.tasks.lookup "k" =
      some ⟨"k", "Buy milk", "", false, 4, some 9⟩ ∧
    ¬ ∃ old new, oneTask.tasks.lookup "k" = some old ∧
      (Update oneTask ⟨"k", "Buy milk", "", false, 4, none⟩ 9).1.tasks.lookup "k" = some new ∧
      new.ID = "k" ∧ new.CreatedAt = old.CreatedAt := by
  have h1 : oneTask.tasks.lookup "k" = some ⟨"k", "Buy milk", "", false, 1, none⟩ := rfl
  have h2 : (Update oneTask ⟨"k", "Buy milk", "", false, 4, none⟩ 9).1.tasks.lookup "k" =
      some ⟨"k", "Buy milk", "", false, 4, some 9⟩ := rfl
  refine ⟨h1, h2, ?_⟩
  rintro ⟨old, new, ho, hn, -, hc⟩
  rw [h1] at ho
  rw [h2] at hn
  injection ho with ho
  injection hn with hn
  subst ho
  subst hn
  simp at hc

theorem mem_GetAll_iff (r : InMemoryRepository) (t : Task) :
    t ∈ r.tasks.entries.map (fun e => e.2) ↔ ∃ k, r.tasks.lookup k = some t := by
  constructor
  · intro h
    obtain ⟨⟨k, t'⟩, he, rfl⟩ := List.mem_map.mp h
    exact ⟨k, (mem_entries_iff_lookup r k t').mp he⟩
  · rintro ⟨k, hk⟩
    exact List.mem_map.mpr ⟨⟨k, t⟩, (mem_entries_iff_lookup r k t).mpr hk, rfl⟩

/-- C5: `Delete` of an id present in the store returns `nil`; afterwards `GetByID` of that
id returns `ErrTaskNotFound`, every task `GetAll` returns is one that was stored under a
different key (so, in a store keyed by id, none has that id), the number of stored tasks
is one less, and the look-up of every other id is as before. -/
theorem Delete_present_id (r : InMemoryRepository) (id : String) (h : id ∈ r.tasks.keys) :
    (Delete r id).2 = none ∧
    GetByID (Delete r id).1 id = .error .ErrTaskNotFound ∧
    (∃ tasks, GetAll (Delete r id).1 = .ok tasks ∧
      (∀ t ∈ tasks, ∃ k, k ≠ id ∧ r.tasks.lookup k = some t) ∧
      (KeyedByID r → ∀ t ∈ tasks, t.ID ≠ id)) ∧
    (Delete r id).1.len + 1 = r.len ∧
    (∀ k, k ≠ id → (Delete r id).1.tasks.lookup k = r.tasks.lookup k) := by
  have hm : id ∈ r.tasks := AList.mem_keys.mpr h
  obtain ⟨old, hold⟩ := Option.isSome_iff_exists.mp (AList.lookup_isSome.mpr hm)
  rw [Delete_of_lookup_some hold]
  have hfrom : ∀ t ∈ (r.tasks.erase id).entries.map (fun e => e.2),
      ∃ k, k ≠ id ∧ r.tasks.lookup k = some t := by
    intro t ht
    obtain ⟨k, hk⟩ := (mem_GetAll_iff ⟨r.tasks.erase id⟩ t).mp ht
    have hne : k ≠ id := by
      rintro rfl
      simp [AList.lookup_erase] at hk
    exact ⟨k, hne, by simpa [AList.lookup_erase_ne hne] using hk⟩
  refine ⟨rfl, ?_, ⟨_, GetAll_eq _, hfrom, ?_⟩, ?_, ?_⟩
  · simp [GetByID, AList.lookup_erase]
  · intro hkeyed t ht heq
    obtain ⟨k, hne, hk⟩ := hfrom t ht
    exact hne ((keyedByID_lookup hkeyed hk).symm.trans heq)
  · simp only [len, AList.keys_erase]
    rw [List.length_erase_of_mem h]
    have : 0 < r.tasks.keys.length := List.length_pos_of_mem h
    omega
  · intro k hne
    simp [AList.lookup_erase_ne hne]

/-- C5, at the store `oneTask` and its id `"k"`: the store is keyed by id and `GetAll`
returns nothing after the deletion. -/
theorem Delete_present_id_witness :
    KeyedByID oneTask ∧
    (Delete oneTask "k").2 = none ∧
    GetByID (Delete oneTask "k").1 "k" = .error .ErrTaskNotFound ∧
    (∃ tasks, GetAll (Delete oneTask "k").1 = .ok tasks ∧
      (∀ t ∈ tasks, ∃ k, k ≠ "k" ∧ oneTask.tasks.lookup k = some t) ∧
      (KeyedByID oneTask → ∀ t ∈ tasks, t.ID ≠ "k")) ∧
    (Delete oneTask "k").1.len + 1 = oneTask.len ∧
    (∀ k, k ≠ "k" → (Delete oneTask "k").1.tasks.lookup k = oneTask.tasks.lookup k) :=
  ⟨by decide, Delete_present_id oneTask "k" (by decide)⟩

/-- C6: when the store holds `task` under `id`, `Check` returns `nil` and leaves under `id`
the same task with `Completed` true and `UpdatedAt` the clock reading, `Uncheck` the same
with `Completed` false; a second `Check` or `Uncheck` at a later reading does so again; and
the look-up of every other id is as before. -/
theorem Check_Uncheck_present_id (r : InMemoryRepository) (id : String) (task : Task)
    (now later : Time) (h : r.tasks.lookup id = some task) :
    (Check r id now).2 = none ∧
    (Check r id now).1.tasks.lookup id =
      some { task with Completed := true, UpdatedAt := some now } ∧
    (∀ k, k ≠ id → (Check r id now).1.tasks.lookup k = r.tasks.lookup k) ∧
    (Uncheck r id now).2 = none ∧
    (Uncheck r id now).1.tasks.lookup id =
      some { task with Completed := false, UpdatedAt := some now } ∧
    (∀ k, k ≠ id → (Uncheck r id now).1.tasks.lookup k = r.tasks.lookup k) ∧
    (Check (Check r id now).1 id later).2 = none ∧
    (Check (Check r id now).1 id later).1.tasks.lookup id =
      some { task with Completed := true, UpdatedAt := some later } ∧
    (Uncheck (Check r id now).1 id later).2 = none ∧
    (Uncheck (Check r id now).1 id later).1.tasks.lookup id =
      some { task with Completed := false, UpdatedAt := some later } ∧
    (∀ k, k ≠ id → (Check (Check r id now).1 id later).1.tasks.lookup k = r.tasks.lookup k) ∧
    (∀ k, k ≠ id →
      (Uncheck (Check r id now).1 id later).1.tasks.lookup k = r.tasks.lookup k) := by
  have hc : (Check r id now).1.tasks.lookup id =
      some { task with Completed := true, UpdatedAt := some now } := by
    rw [Check_of_lookup_some now h]
    exact AList.lookup_insert _
  have hcne : ∀ k, k ≠ id → (Check r id now).1.tasks.lookup k = r.tasks.lookup k := by
    intro k hne
    rw [Check_of_lookup_some now h]
    exact AList.lookup_insert_ne hne
  refine ⟨?_, hc, hcne, ?_, ?_, ?_, ?_, ?_, ?_, ?_, ?_, ?_⟩
  · rw [Check_of_lookup_some now h]
  · rw [Uncheck_of_lookup_some now h]
  · rw [Uncheck_of_lookup_some now h]
    exact AList.lookup_insert _
  · intro k hne
    rw [Uncheck_of_lookup_some now h]
    exact AList.lookup_insert_ne hne
  · rw [Check_of_lookup_some later hc]
  · rw [Check_of_lookup_some later hc]
    exact AList.lookup_insert _
  · rw [Uncheck_of_lookup_some later hc]
  · rw [Uncheck_of_lookup_some later hc]
    exact AList.lookup_insert _
  · intro k hne
    rw [Check_of_lookup_some later hc]
    exact (AList.lookup_insert_ne hne).trans (hcne k hne)
  · intro k hne
    rw [Uncheck_of_lookup_some later hc]
    exact (AList.lookup_insert_ne hne).trans (hcne k hne)

/-- C6, at the store `oneTask`, whose task under `"k"` is not completed, with clock
readings 2 and 3. -/
theorem Check_Uncheck_present_id_witness :
    (Check oneTask "k" 2).1.tasks.lookup "k" = some ⟨"k", "Buy milk", "", true, 1, some 2⟩ ∧
    (Uncheck oneTask "k" 2).1.tasks.lookup "k" =
      some ⟨"k", "Buy milk", "", false, 1, some 2⟩ ∧
    (Check (Check oneTask "k" 2).1 "k" 3).1.tasks.lookup "k" =
      some ⟨"k", "Buy milk", "", true, 1, some 3⟩ ∧
    (Uncheck (Check oneTask "k" 2).1 "k" 3).1.tasks.lookup "k" =
      some ⟨"k", "Buy milk", "", false, 1, some 3⟩ :=
  have h := Check_Uncheck_present_id oneTask "k" ⟨"k", "Buy milk", "", false, 1, none⟩ 2 3 rfl
  ⟨h.2.1, h.2.2.2.2.1, h.2.2.2.2.2.2.2.1, h.2.2.2.2.2.2.2.2.2.1⟩

/-- C9: `GetAll` returns `nil` as its error and a list with one element per key of the
store: its length is the number of stored tasks, a task is in it exactly when it is stored
under some key, it holds a task as many times as there are keys that store it, and in a
store keyed by id no task is in it twice. -/
theorem GetAll_lists_the_store (r : InMemoryRepository) :
    ∃ tasks, GetAll r = .ok tasks ∧
      tasks.length = r.len ∧
      (∀ t, t ∈ tasks ↔ ∃ k, r.tasks.lookup k = some t) ∧
      (∀ t, tasks.count t =
        r.tasks.keys.countP (fun k => decide (r.tasks.lookup k = some t))) ∧
      (KeyedByID r → tasks.Nodup) := by
  refine ⟨_, GetAll_eq r, ?_, mem_GetAll_iff r, ?_, ?_⟩
  · simp [len, AList.keys, List.keys]
  · intro t
    simp only [AList.keys, List.keys, List.count, List.countP_map]
    apply List.countP_congr
    intro e he
    obtain ⟨k, t'⟩ := e
    have hl : r.tasks.lookup k = some t' := (mem_entries_iff_lookup r k t').mp he
    simp [hl]
  · intro hkeyed
    apply List.Nodup.of_map Task.ID
    have hids : (r.tasks.entries.map fun e => e.2).map Task.ID = r.tasks.keys := by
      rw [List.map_map]
      exact List.map_congr_left fun e he => hkeyed e he
    rw [hids]
    exact r.tasks.keys_nodup

/-- C9, at the store `oneTask`, which is keyed by id: `GetAll` returns its one task. -/
theorem GetAll_lists_the_store_witness :
    GetAll oneTask = .ok [⟨"k", "Buy milk", "", false, 1, none⟩] ∧
    KeyedByID oneTask ∧
    ∃ tasks, GetAll oneTask = .ok tasks ∧
      tasks.length = oneTask.len ∧
      (∀ t, t ∈ tasks ↔ ∃ k, oneTask.tasks.lookup k = some t) ∧
      (∀ t, tasks.count t =
        oneTask.tasks.keys.countP (fun k => decide (oneTask.tasks.lookup k = some t))) ∧
      (KeyedByID oneTask → tasks.Nodup) :=
  ⟨rfl, by decide, GetAll_lists_the_store oneTask⟩

/-! ## Sequences of calls -/

theorem lookup_Delete (r : InMemoryRepository) (id k : String) :
    (Delete r id).1.tasks.lookup k = if k = id then none else r.tasks.lookup k := by
  cases h : r.tasks.lookup id with
  | none =>
    rw [Delete_of_lookup_none h]
    by_cases hk : k = id
    · subst hk
      simp [h]
    · simp [hk]
  | some old =>
    rw [Delete_of_lookup_some h]
    by_cases hk : k = id
    · subst hk
      simp [AList.lookup_erase]
    · simp [hk, AList.lookup_erase_ne hk]

theorem lookup_Check (r : InMemoryRepository) (id k : String) (now : Time) :
    (Check r id now).1.tasks.lookup k =
      if k = id then
        (r.tasks.lookup id).map fun t => { t with Completed := true, UpdatedAt := some now }
      else r.tasks.lookup k := by
  cases h : r.tasks.lookup id with
  | none =>
    rw [Check_of_lookup_none now h]
    by_cases hk : k = id
    · subst hk
      simp [h]
    · simp [hk]
  | some old =>
    rw [Check_of_lookup_some now h]
    by_cases hk : k = id
    · subst hk
      simp [AList.lookup_insert]
    · simp [hk, AList.lookup_insert_ne hk]

theorem lookup_Uncheck (r : InMemoryRepository) (id k : String) (now : Time) :
    (Uncheck r id now).1.tasks.lookup k =
      if k = id then
        (r.tasks.lookup id).map fun t => { t with Completed := false, UpdatedAt := some now }
      else r.tasks.lookup k := by
  cases h : r.tasks.lookup id with
  | none =>
    rw [Uncheck_of_lookup_none now h]
    by_cases hk : k = id
    · subst hk
      simp [h]
    · simp [hk]
  | some old =>
    rw [Uncheck_of_lookup_some now h]
    by_cases hk : k = id
    · subst hk
      simp [AList.lookup_insert]
    · simp [hk, AList.lookup_insert_ne hk]

theorem run_append_singleton (r : InMemoryRepository) (calls : List Call) (c : Call) :
    run r (calls ++ [c]) = c.apply (run r calls) := by
  simp [run, List.foldl_append]

theorem clocks_append (l₁ l₂ : List Call) : clocks (l₁ ++ l₂) = clocks l₁ ++ clocks l₂ := by
  simp [clocks, List.filterMap_append]

theorem clocks_cons (c : Call) (l : List Call) :
    clocks (c :: l) = c.clock.toList ++ clocks l := by
  cases h : c.clock <;> simp [clocks, List.filterMap_cons, h]

theorem keyedByID_iff (r : InMemoryRepository) :
    KeyedByID r ↔ ∀ k t, r.tasks.lookup k = some t → t.ID = k := by
  constructor
  · intro h k t hk
    exact keyedByID_lookup h hk
  · rintro h ⟨k, t⟩ he
    exact h k t ((mem_entries_iff_lookup r k t).mp he)

theorem apply_keyedByID (r : InMemoryRepository) (c : Call) (h : KeyedByID r) :
    KeyedByID (c.apply r) := by
  rw [keyedByID_iff] at h ⊢
  intro k t hk
  cases c with
  | Create task id now =>
    simp only [Call.apply, lookup_Create] at hk
    split_ifs at hk with hid
    · injection hk with hk
      subst hk
      exact hid.symm
    · exact h k t hk
  | Update task now =>
    simp only [Call.apply, lookup_Update] at hk
    split_ifs at hk with hid
    · injection hk with hk
      subst hk
      exact hid.symm
    · exact h k t hk
  | Delete id =>
    simp only [Call.apply, lookup_Delete] at hk
    split_ifs at hk with hid
    exact h k t hk
  | Check id now =>
    simp only [Call.apply, lookup_Check] at hk
    split_ifs at hk with hid
    · obtain ⟨old, hold, rfl⟩ := Option.map_eq_some'.mp hk
      subst hid
      exact h _ old hold
    · exact h k t hk
  | Uncheck id now =>
    simp only [Call.apply, lookup_Uncheck] at hk
    split_ifs at hk with hid
    · obtain ⟨old, hold, rfl⟩ := Option.map_eq_some'.mp hk
      subst hid
      exact h _ old hold
    · exact h k t hk

/-- Every store built from the empty one by calls of the repository is keyed by id, so
no two of its tasks have the same id. -/
theorem run_keyedByID (calls : List Call) : KeyedByID (run NewInMemoryRepository calls) := by
  induction calls using List.reverseRecOn with
  | nil =>
    intro e he
    simp [run, NewInMemoryRepository] at he
  | append_singleton l c ih =>
    rw [run_append_singleton]
    exact apply_keyedByID _ c ih

/-- C7 (the code at a failing input): after the one call `Update` of a task with the empty
id on the empty store, with no call of `Create` and so no identifier generated, the store
holds a task whose id is empty. -/
theorem Update_stores_empty_id :
    (run NewInMemoryRepository updateEmptyID).tasks.lookup "" =
      some ⟨"", "t", "", false, 0, some 1⟩ ∧
    ∃ k t, (run NewInMemoryRepository updateEmptyID).tasks.lookup k = some t ∧ t.ID = "" :=
  ⟨rfl, "", ⟨"", "t", "", false, 0, some 1⟩, rfl, rfl⟩

/-! ## Timestamps along a sequence of calls -/

theorem Timely.mono {r : InMemoryRepository} {a b : Time} (h : Timely r a) (hab : a ≤ b) :
    Timely r b := by
  intro k t hk
  obtain ⟨h1, h2⟩ := h k t hk
  refine ⟨le_trans h1 hab, fun u hu => ?_⟩
  obtain ⟨h3, h4⟩ := h2 u hu
  exact ⟨h3, le_trans h4 hab⟩

theorem Timely_empty (b : Time) : Timely NewInMemoryRepository b := by
  intro k t hk
  simp [NewInMemoryRepository] at hk

/-- A call with clock reading `now` keeps the store timely up to `now`. -/
theorem apply_timely_of_clock (r : InMemoryRepository) (c : Call) (now : Time)
    (hc : c.clock = some now) (hadm : c.Admissible) (h : Timely r now) :
    Timely (c.apply r) now := by
  intro k t hk
  cases c with
  | Create task id n =>
    simp only [Call.clock, Option.some.injEq] at hc
    subst hc
    simp only [Call.apply, lookup_Create] at hk
    split_ifs at hk with hid
    · injection hk with hk
      subst hk
      refine ⟨le_refl _, fun u hu => ?_⟩
      simp only [Call.Admissible] at hadm
      simp [hadm] at hu
    · exact h k t hk
  | Update task n =>
    simp only [Call.clock, Option.some.injEq] at hc
    subst hc
    simp only [Call.apply, lookup_Update] at hk
    split_ifs at hk with hid
    · injection hk with hk
      subst hk
      simp only [Call.Admissible] at hadm
      refine ⟨hadm, fun u hu => ?_⟩
      simp only [Option.some.injEq] at hu
      subst hu
      exact ⟨hadm, le_refl _⟩
    · exact h k t hk
  | Delete id =>
    simp [Call.clock] at hc
  | Check id n =>
    simp only [Call.clock, Option.some.injEq] at hc
    subst hc
    simp only [Call.apply, lookup_Check] at hk
    split_ifs at hk with hid
    · obtain ⟨old, hold, rfl⟩ := Option.map_eq_some'.mp hk
      have ho := (h id old hold).1
      refine ⟨ho, fun u hu => ?_⟩
      simp only [Option.some.injEq] at hu
      subst hu
      exact ⟨ho, le_refl _⟩
    · exact h k t hk
  | Uncheck id n =>
    simp only [Call.clock, Option.some.injEq] at hc
    subst hc
    simp only [Call.apply, lookup_Uncheck] at hk
    split_ifs at hk with hid
    · obtain ⟨old, hold, rfl⟩ := Option.map_eq_some'.mp hk
      have ho := (h id old hold).1
      refine ⟨ho, fun u hu => ?_⟩
      simp only [Option.some.injEq] at hu
      subst hu
      exact ⟨ho, le_refl _⟩
    · exact h k t hk

/-- A call that reads no clock keeps the store timely. -/
theorem apply_timely_of_no_clock (r : InMemoryRepository) (c : Call) (b : Time)
    (hc : c.clock = none) (h : Timely r b) : Timely (c.apply r) b := by
  intro k t hk
  cases c with
  | Delete id =>
    simp only [Call.apply, lookup_Delete] at hk
    split_ifs at hk with hid
    exact h k t hk
  | Create task id n => simp [Call.clock] at hc
  | Update task n => simp [Call.clock] at hc
  | Check id n => simp [Call.clock] at hc
  | Uncheck id n => simp [Call.clock] at hc

/-- After admissible calls with non-decreasing clock readings the store is timely up to
any bound on those readings. -/
theorem run_timely (calls : List Call) (hclock : (clocks calls).Pairwise (· ≤ ·))
    (hadm : ∀ c ∈ calls, c.Admissible) (b : Time) (hb : ∀ n ∈ clocks calls, n ≤ b) :
    Timely (run NewInMemoryRepository calls) b := by
  induction calls using List.reverseRecOn generalizing b with
  | nil => exact Timely_empty b
  | append_singleton l c ih =>
    rw [run_append_singleton]
    rw [clocks_append, List.pairwise_append] at hclock
    obtain ⟨hl, -, hlc⟩ := hclock
    have hadml : ∀ x ∈ l, x.Admissible := fun x hx => hadm x (List.mem_append_left _ hx)
    have hadmc : c.Admissible := hadm c (by simp)
    cases hcl : c.clock with
    | none =>
      refine apply_timely_of_no_clock _ c b hcl (ih hl hadml b ?_)
      intro n hn
      exact hb n (by rw [clocks_append]; exact List.mem_append_left _ hn)
    | some now =>
      have hmem : now ∈ clocks [c] := by simp [clocks, hcl]
      have hprev : Timely (run NewInMemoryRepository l) now :=
        ih hl hadml now (fun n hn => hlc n hn now hmem)
      have hnow : now ≤ b := hb now (by rw [clocks_append]; exact List.mem_append_right _ hmem)
      exact (apply_timely_of_clock _ c now hcl hadmc hprev).mono hnow

/-- One admissible call never puts an earlier `UpdatedAt` in the place of a stored one,
when the store is timely up to the clock reading of the call. -/
theorem apply_updatedAt_le (r : InMemoryRepository) (c : Call) (hadm : c.Admissible)
    (h : ∀ now, c.clock = some now → Timely r now) (k : String) (t t' : Task) (u u' : Time)
    (hk : r.tasks.lookup k = some t) (hu : t.UpdatedAt = some u)
    (hk' : (c.apply r).tasks.lookup k = some t') (hu' : t'.UpdatedAt = some u') : u ≤ u' := by
  have same : r.tasks.lookup k = some t' → u ≤ u' := by
    intro hs
    rw [hk] at hs
    injection hs with hs
    subst hs
    rw [hu] at hu'
    injection hu' with hu'
    exact le_of_eq hu'
  cases c with
  | Create task id n =>
    simp only [Call.apply, lookup_Create] at hk'
    split_ifs at hk' with hid
    · injection hk' with hk'
      subst hk'
      simp only [Call.Admissible] at hadm
      simp [hadm] at hu'
    · exact same hk'
  | Update task n =>
    simp only [Call.apply, lookup_Update] at hk'
    split_ifs at hk' with hid
    · injection hk' with hk'
      subst hk'
      simp only [Option.some.injEq] at hu'
      subst hu'
      exact ((h n rfl k t hk).2 u hu).2
    · exact same hk'
  | Delete id =>
    simp only [Call.apply, lookup_Delete] at hk'
    split_ifs at hk' with hid
    exact same hk'
  | Check id n =>
    simp only [Call.apply, lookup_Check] at hk'
    split_ifs at hk' with hid
    · obtain ⟨old, -, rfl⟩ := Option.map_eq_some'.mp hk'
      simp only [Option.some.injEq] at hu'
      subst hu'
      exact ((h n rfl k t hk).2 u hu).2
    · exact same hk'
  | Uncheck id n =>
    simp only [Call.apply, lookup_Uncheck] at hk'
    split_ifs at hk' with hid
    · obtain ⟨old, -, rfl⟩ := Option.map_eq_some'.mp hk'
      simp only [Option.some.injEq] at hu'
      subst hu'
      exact ((h n rfl k t hk).2 u hu).2
    · exact same hk'

/-- C8 (as amended): take any sequence of calls from the empty store whose clock readings
are non-decreasing, whose `Create` calls are given tasks without `UpdatedAt` and whose
`Update` calls are given tasks with `CreatedAt` not later than the clock reading of the
call.  Then every stored task with `UpdatedAt` set has `UpdatedAt ≥ CreatedAt`, and no call
of the sequence puts an earlier `UpdatedAt` in the place of the one stored under the same
id before it. -/
theorem updatedAt_ge_createdAt_and_monotone (calls : List Call)
    (hclock : (clocks calls).Pairwise (· ≤ ·)) (hadm : ∀ c ∈ calls, c.Admissible) :
    (∀ k t u, (run NewInMemoryRepository calls).tasks.lookup k = some t →
      t.UpdatedAt = some u → t.CreatedAt ≤ u) ∧
    (∀ pre c post, calls = pre ++ c :: post → ∀ k t t' u u',
      (run NewInMemoryRepository pre).tasks.lookup k = some t → t.UpdatedAt = some u →
      (c.apply (run NewInMemoryRepository pre)).tasks.lookup k = some t' →
      t'.UpdatedAt = some u' → u ≤ u') := by
  constructor
  · intro k t u hk hu
    cases hlast : (clocks calls).getLast? with
    | none =>
      have hnil : clocks calls = [] := List.getLast?_eq_none_iff.mp hlast
      have ht := run_timely calls hclock hadm 0 (by simp [hnil])
      exact ((ht k t hk).2 u hu).1
    | some b =>
      have hb : ∀ n ∈ clocks calls, n ≤ b := by
        intro n hn
        obtain ⟨l, hl⟩ := List.getLast?_eq_some_iff.mp hlast
        rw [hl] at hclock hn
        rw [List.pairwise_append] at hclock
        rcases List.mem_append.mp hn with hn | hn
        · exact hclock.2.2 n hn b (by simp)
        · simp at hn
          exact le_of_eq hn
      exact (((run_timely calls hclock hadm b hb) k t hk).2 u hu).1
  · intro pre c post hcalls k t t' u u' hk hu hk' hu'
    subst hcalls
    have hadmc : c.Admissible := hadm c (by simp)
    have hadmp : ∀ x ∈ pre, x.Admissible := fun x hx => hadm x (List.mem_append_left _ hx)
    rw [clocks_append, List.pairwise_append] at hclock
    obtain ⟨hp, -, hpc⟩ := hclock
    refine apply_updatedAt_le _ c hadmc ?_ k t t' u u' hk hu hk' hu'
    intro now hnow
    refine run_timely pre hp hadmp now (fun n hn => hpc n hn now ?_)
    rw [clocks_cons, hnow]
    simp

/-- C8 (as amended), at the sequence `Create` at 5, `Check` at 6, `Update` at 7 with the
stored `CreatedAt`, `Uncheck` at 7, `Delete`. -/
theorem updatedAt_ge_createdAt_and_monotone_witness :
    (∀ k t u, (run NewInMemoryRepository
        [.Create Task.zero "a" 5, .Check "a" 6, .Update ⟨"a", "x", "", true, 5, some 6⟩ 7,
          .Uncheck "a" 7, .Delete "b"]).tasks.lookup k = some t →
      t.UpdatedAt = some u → t.CreatedAt ≤ u) ∧
    (∀ pre c post,
      [Call.Create Task.zero "a" 5, .Check "a" 6, .Update ⟨"a", "x", "", true, 5, some 6⟩ 7,
          .Uncheck "a" 7, .Delete "b"] = pre ++ c :: post → ∀ k t t' u u',
      (run NewInMemoryRepository pre).tasks.lookup k = some t → t.UpdatedAt = some u →
      (c.apply (run NewInMemoryRepository pre)).tasks.lookup k = some t' →
      t'.UpdatedAt = some u' → u ≤ u') :=
  updatedAt_ge_createdAt_and_monotone
    [.Create Task.zero "a" 5, .Check "a" 6, .Update ⟨"a", "x", "", true, 5, some 6⟩ 7,
      .Uncheck "a" 7, .Delete "b"]
    (by decide) (by decide)

/-- C8 (as stated) fails, with non-decreasing clock readings in each case: a `Create` at 5
of a task that arrives with `UpdatedAt` 3 stores `UpdatedAt` 3 below `CreatedAt` 5; an
`Update` at 6 of a task with `CreatedAt` 9 stores `UpdatedAt` 6 below `CreatedAt` 9; and
after a `Create` of a task that arrives with `UpdatedAt` 8, a `Check` at 6 puts 6 in the
place of 8. -/
theorem updatedAt_below_createdAt :
    ((clocks createStale).Pairwise (· ≤ ·) ∧
      (run NewInMemoryRepository createStale).tasks.lookup "a" =
        some ⟨"a", "", "", false, 5, some 3⟩ ∧
      ¬ ∀ k t u, (run NewInMemoryRepository createStale).tasks.lookup k = some t →
        t.UpdatedAt = some u → t.CreatedAt ≤ u) ∧
    ((clocks updateLateCreatedAt).Pairwise (· ≤ ·) ∧
      (run NewInMemoryRepository updateLateCreatedAt).tasks.lookup "a" =
        some ⟨"a", "", "", false, 9, some 6⟩ ∧
      ¬ ∀ k t u, (run NewInMemoryRepository updateLateCreatedAt).tasks.lookup k = some t →
        t.UpdatedAt = some u → t.CreatedAt ≤ u) ∧
    ((clocks (createAhead ++ [.Check "a" 6])).Pairwise (· ≤ ·) ∧
      (run NewInMemoryRepository createAhead).tasks.lookup "a" =
        some ⟨"a", "", "", false, 5, some 8⟩ ∧
      ((Call.Check "a" 6).apply (run NewInMemoryRepository createAhead)).tasks.lookup "a" =
        some ⟨"a", "", "", true, 5, some 6⟩) := by
  refine ⟨⟨by decide, rfl, ?_⟩, ⟨by decide, rfl, ?_⟩, by decide, rfl, rfl⟩
  · intro h
    have := h "a" ⟨"a", "", "", false, 5, some 3⟩ 3 rfl rfl
    simp at this
  · intro h
    have := h "a" ⟨"a", "", "", false, 9, some 6⟩ 6 rfl rfl
    simp at this

end Todo
